import Mathlib

/-!
# zjson tokenizer: shallow embedding and verification

This file embeds the tokenizer of `src/lib.rs` (a nom 7 based lexer for
quoted strings and floating point literals) over `List Char` and settles
the specification claims against it.

Modelling conventions:
* A nom complete-mode parser `I -> IResult<I, O>` becomes
  `List Char → Option (List Char × O)`: `some (rest, out)` is `Ok`,
  `none` is `Err::Error` (no parser here raises `Err::Failure` or
  `Incomplete`, and `context` only decorates errors).
* `recognize` returns the consumed prefix of the input.
* nom 7 `escaped_transform` (complete) is modelled after its source loop,
  including the `index == 0` rejection: when the very first position
  matches neither the normal set nor the control character the combinator
  fails instead of matching an empty body.
* The Rust expression `res.parse::<f64>().unwrap()` in `parse_float` is
  modelled by `rustF64Parse` (the documented `f64: FromStr` grammar) with
  the panicking `unwrap` made explicit as `FloatResult.panic`; the float
  value is represented by the exact rational value of the literal.
-/

/-- Result type of a nom parser over char lists: `some (rest, out)` or error. -/
abbrev P (α : Type) := List Char → Option (List Char × α)

/-- The single-quote character. -/
def squote : Char := '\''

/-- The double-quote character. -/
def dquote : Char := '"'

/-- The backslash (escape control) character. -/
def bslash : Char := '\\'

/-- nom `char(c)`: match exactly the character `c`. -/
def charP (c : Char) : P Char := fun l =>
  match l with
  | [] => none
  | a :: r => if a = c then some (r, a) else none

/-- nom `one_of(s)`: match one character contained in `s`. -/
def one_of (s : List Char) : P Char := fun l =>
  match l with
  | [] => none
  | a :: r => if a ∈ s then some (r, a) else none

/-- nom `opt(p)`: always succeeds, consuming input only when `p` does. -/
def optP (p : P α) : P (Option α) := fun l =>
  match p l with
  | some (r, a) => some (r, some a)
  | none => some (l, none)

/-- Sequencing, as in nom `tuple((p, q))`. -/
def pseq (p : P α) (q : P β) : P (α × β) := fun l =>
  match p l with
  | none => none
  | some (r, a) =>
    match q r with
    | none => none
    | some (r2, b) => some (r2, (a, b))

/-- nom `preceded(p, q)`. -/
def preceded (p : P α) (q : P β) : P β := fun l =>
  match pseq p q l with
  | none => none
  | some (r, (_, b)) => some (r, b)

/-- nom `terminated(p, q)`. -/
def terminated (p : P α) (q : P β) : P α := fun l =>
  match pseq p q l with
  | none => none
  | some (r, (a, _)) => some (r, a)

/-- nom `alt((p, q))`: ordered choice, second tried only on error. -/
def alt2 (p q : P α) : P α := fun l =>
  match p l with
  | some r => some r
  | none => q l

/-- nom `recognize(p)`: run `p`, return the consumed prefix as output. -/
def recognize (p : P α) : P (List Char) := fun l =>
  match p l with
  | none => none
  | some (r, _) => some (r, l.take (l.length - r.length))

/-- nom `many0(p)` loop with explicit fuel; the fuel bound is never hit
because it starts above the input length and every iteration that
continues has strictly consumed input (nom's infinite-loop check:
an iteration that consumes nothing is an error). -/
def many0Fuel (p : P α) : Nat → P (List α)
  | 0, l => some (l, [])
  | Nat.succ n, l =>
    match p l with
    | none => some (l, [])
    | some (r, a) =>
      if r.length < l.length then
        match many0Fuel p n r with
        | some (r2, as) => some (r2, a :: as)
        | none => none
      else none

/-- nom `many0(p)`. -/
def many0 (p : P α) : P (List α) := fun l => many0Fuel p (l.length + 1) l

/-- nom `many1(p)`: one mandatory hit of `p`, then the `many0` loop. -/
def many1 (p : P α) : P (List α) := fun l =>
  match p l with
  | none => none
  | some (r, a) =>
    match many0 p r with
    | none => none
    | some (r2, as) => some (r2, a :: as)

/-- Token type of the tokenizer (`Token` in `lib.rs`); the `f64` payload is
represented by the exact rational value of the converted lexeme. -/
inductive Token : Type
  | string (s : List Char)
  | number (v : ℚ)
deriving DecidableEq, Repr

/-- Loop body of nom 7 `escaped_transform` past the first position
(`index > 0`): normal characters (outside `{control, q}`) are copied, the
control character must be followed by `\` or `q` (via
`alt((tag("\\"), tag(q)))`) whose match is appended, reaching the end of
input succeeds with everything consumed, and any other position where the
normal parser fails ends the body there. -/
def escBodyGo (q : Char) : List Char → Option (List Char × List Char)
  | [] => some ([], [])
  | c :: rest =>
    if c = bslash then
      match rest with
      | [] => none
      | d :: rest2 =>
        if d = bslash ∨ d = q then
          match escBodyGo q rest2 with
          | some (rem, out) => some (rem, d :: out)
          | none => none
        else none
    else if c = q then some (c :: rest, [])
    else
      match escBodyGo q rest with
      | some (rem, out) => some (rem, c :: out)
      | none => none

/-- nom 7 `escaped_transform(none_of([control, q]), control, alt((tag control, tag q)))`
in complete mode: as `escBodyGo`, except that at `index = 0` a position
where the normal parser fails and that does not hold the control character
is an error (`ErrorKind::EscapedTransform`) rather than an empty match. -/
def escaped_transform (q : Char) : List Char → Option (List Char × List Char)
  | [] => some ([], [])
  | c :: rest =>
    if c = bslash then
      match rest with
      | [] => none
      | d :: rest2 =>
        if d = bslash ∨ d = q then
          match escBodyGo q rest2 with
          | some (rem, out) => some (rem, d :: out)
          | none => none
        else none
    else if c = q then none
    else
      match escBodyGo q rest with
      | some (rem, out) => some (rem, c :: out)
      | none => none

/-- `delimited(tag(q), escaped_transform(...), tag(q))` mapped to
`Token::String`: common shape of the two quoted-string parsers. -/
def quoted (q : Char) : P Token := fun l =>
  match l with
  | [] => none
  | c :: rest =>
    if c = q then
      match escaped_transform q rest with
      | none => none
      | some (rem, out) =>
        match rem with
        | [] => none
        | d :: rem2 => if d = q then some (rem2, Token.string out) else none
    else none

/-- `parse_single_quoted_string` from `lib.rs`. -/
def parse_single_quoted_string : P Token := quoted squote

/-- `parse_double_quoted_string` from `lib.rs`. -/
def parse_double_quoted_string : P Token := quoted dquote

/-- `parse_string` from `lib.rs`: ordered alternation of the two quoted
string parsers. -/
def parse_string : P Token :=
  alt2 parse_single_quoted_string parse_double_quoted_string

/-- The decimal digit characters, as in `one_of("0123456789")`. -/
def digitChars : List Char := ['0', '1', '2', '3', '4', '5', '6', '7', '8', '9']

/-- `parse_decimal` from `lib.rs`:
`recognize(many1(terminated(one_of("0123456789"), many0(char('_')))))`. -/
def parse_decimal : P (List Char) :=
  recognize (many1 (terminated (one_of digitChars) (many0 (charP '_'))))

/-- Shape 1 of `parse_float`: `recognize(tuple((char('.'), parse_decimal,
opt(tuple((one_of("eE"), opt(one_of("+-")), parse_decimal))))))`. -/
def float_case1 : P (List Char) :=
  recognize (pseq (charP '.') (pseq parse_decimal
    (optP (pseq (one_of ['e', 'E']) (pseq (optP (one_of ['+', '-'])) parse_decimal)))))

/-- Shape 2 of `parse_float`: `recognize(tuple((parse_decimal,
opt(preceded(char('.'), parse_decimal)), one_of("eE"), opt(one_of("+-")),
parse_decimal)))`. -/
def float_case2 : P (List Char) :=
  recognize (pseq parse_decimal (pseq (optP (preceded (charP '.') parse_decimal))
    (pseq (one_of ['e', 'E']) (pseq (optP (one_of ['+', '-'])) parse_decimal))))

/-- Shape 3 of `parse_float`: `recognize(tuple((parse_decimal, char('.'),
opt(parse_decimal))))`. -/
def float_case3 : P (List Char) :=
  recognize (pseq parse_decimal (pseq (charP '.') (optP parse_decimal)))

/-- The `alt` of the three recognized shapes inside `parse_float`. -/
def parse_float_raw : P (List Char) :=
  alt2 float_case1 (alt2 float_case2 float_case3)

/-- Numeric value of a digit character. -/
def digitVal (c : Char) : ℕ := c.toNat - 48

/-- Value of a digit list read as a base-10 numeral. -/
def digitsVal (l : List Char) : ℕ := l.foldl (fun acc c => acc * 10 + digitVal c) 0

/-- Decides whether `c` is an ASCII decimal digit (the characters of
`one_of("0123456789")`). -/
def isDigitCh (c : Char) : Bool := c ∈ digitChars

/-- Exponent suffix of the Rust `f64: FromStr` grammar: either nothing at
all, or `('e'|'E') ['+'|'-'] Digit+` consuming the whole rest. -/
def rustExpPart : List Char → Option ℤ
  | [] => some 0
  | c :: r =>
    if c = 'e' ∨ c = 'E' then
      let r1 := match r with
        | s :: t => if s = '+' ∨ s = '-' then t else s :: t
        | [] => []
      let sgn : ℤ := match r with
        | s :: _ => if s = '-' then -1 else 1
        | [] => 1
      let ed := r1.takeWhile (fun d => isDigitCh d)
      let r2 := r1.dropWhile (fun d => isDigitCh d)
      if ed ≠ [] ∧ r2 = [] then some (sgn * (digitsVal ed : ℤ)) else none
    else none

/-- Modelled from the Rust standard library: the grammar accepted by
`<f64 as FromStr>::from_str`, namely
`[+-]? ( Digit+ [ '.' Digit* ] Exp? | '.' Digit+ Exp? )` with
`Exp = ('e'|'E') [+-] Digit+` (the `inf`/`infinity`/`nan` alternatives are
omitted: no lexeme recognized by `parse_float` can spell them). The result
is the exact rational value of the literal; `none` is a conversion error,
which `unwrap` turns into a panic. Underscores are not digits and make the
conversion fail. -/
def rustF64Parse (s : List Char) : Option ℚ :=
  let sgn : ℚ := match s with
    | '-' :: _ => -1
    | _ => 1
  let s1 := match s with
    | '+' :: r => r
    | '-' :: r => r
    | r => r
  let ip := s1.takeWhile (fun d => isDigitCh d)
  let r1 := s1.dropWhile (fun d => isDigitCh d)
  let fp := match r1 with
    | '.' :: r2 => r2.takeWhile (fun d => isDigitCh d)
    | _ => []
  let r3 := match r1 with
    | '.' :: r2 => r2.dropWhile (fun d => isDigitCh d)
    | _ => r1
  match rustExpPart r3 with
  | none => none
  | some e =>
    if ip = [] ∧ fp = [] then none
    else some (sgn * ((digitsVal ip : ℚ) + (digitsVal fp : ℚ) / (10 : ℚ) ^ fp.length)
      * (10 : ℚ) ^ e)

/-- Outcome of `parse_float`: a parse error, a token with the remaining
input, or a panic of the `unwrap` on a failed string-to-double conversion. -/
inductive FloatResult : Type
  | ok (rest : List Char) (tok : Token)
  | err
  | panic
deriving DecidableEq, Repr

/-- `parse_float` from `lib.rs`: the three-shape `alt`, then
`res.parse::<f64>().unwrap()` on the recognized lexeme. -/
def parse_float (l : List Char) : FloatResult :=
  match parse_float_raw l with
  | none => .err
  | some (rest, lexeme) =>
    match rustF64Parse lexeme with
    | some v => .ok rest (Token.number v)
    | none => .panic

/-! ## Specification-side definitions

The following definitions transcribe the spec's grammar prose directly
(shapes tried from the same start position, `DIGITS` with trailing
underscore separators, the escape function of the round-trip property,
and "the body reaches a matching unescaped closing quote"). They are
compared with the embedded code above. -/

/-- Drop the underscore separators permitted after each digit. -/
def skipUnderscores : List Char → List Char
  | '_' :: r => skipUnderscores r
  | r => r

/-- Dropping separators does not lengthen the input. -/
theorem skipUnderscores_length (l : List Char) :
    (skipUnderscores l).length ≤ l.length := by
  induction l with
  | nil => simp [skipUnderscores]
  | cons c r ih =>
    by_cases h : c = '_'
    · subst h
      simpa [skipUnderscores] using Nat.le_succ_of_le ih
    · simp [skipUnderscores, h]

/-- Continuation of the spec's `DIGITS`: while positioned at a digit,
consume it and its trailing underscores; stop at the first non-digit. -/
def specDigitsLoop (l : List Char) : List Char :=
  match l with
  | [] => []
  | c :: r => if isDigitCh c then specDigitsLoop (skipUnderscores r) else c :: r
termination_by l.length
decreasing_by
  simp only [List.length_cons]
  exact Nat.lt_succ_of_le (skipUnderscores_length r)

/-- Spec `DIGITS`: one-or-more ASCII decimal digits, each followed by
zero-or-more underscore separators (no leading underscore); returns the
rest of the input after the matched span. -/
def specDigitsRest (l : List Char) : Option (List Char) :=
  match l with
  | [] => none
  | c :: r => if isDigitCh c then some (specDigitsLoop (skipUnderscores r)) else none

/-- Spec exponent: `(e|E) [+|-] DIGITS`, from a given position. -/
def specExpTail (l : List Char) : Option (List Char) :=
  match l with
  | [] => none
  | c :: r =>
    if c = 'e' ∨ c = 'E' then
      specDigitsRest (match r with
        | s :: t => if s = '+' ∨ s = '-' then t else s :: t
        | [] => [])
    else none

/-- Spec shape 1 (leading-dot): `.` DIGITS with optional exponent. -/
def specShape1 (l : List Char) : Option (List Char) :=
  match l with
  | [] => none
  | c :: r =>
    if c = '.' then
      match specDigitsRest r with
      | some r1 => some (match specExpTail r1 with | some r2 => r2 | none => r1)
      | none => none
    else none

/-- Spec shape 2 (exponent-bearing): DIGITS, optional `.` DIGITS fraction,
then a mandatory exponent. -/
def specShape2 (l : List Char) : Option (List Char) :=
  match specDigitsRest l with
  | some r1 =>
    specExpTail (match r1 with
      | [] => r1
      | b :: r1b =>
        if b = '.' then (match specDigitsRest r1b with | some x => x | none => r1)
        else r1)
  | none => none

/-- Spec shape 3 (trailing-dot/decimal): DIGITS `.` optional DIGITS, no
exponent. -/
def specShape3 (l : List Char) : Option (List Char) :=
  match specDigitsRest l with
  | some r1 =>
    match r1 with
    | [] => none
    | b :: r2 =>
      if b = '.' then some (match specDigitsRest r2 with | some r3 => r3 | none => r2)
      else none
  | none => none

/-- The three spec shapes attempted on the same input in the fixed order
1, 2, 3; first success wins. -/
def specShapes (l : List Char) : Option (List Char) :=
  match specShape1 l with
  | some r => some r
  | none =>
    match specShape2 l with
    | some r => some r
    | none => specShape3 l

/-- The escape function of the spec's round-trip property: each backslash
becomes backslash-backslash and each occurrence of the quote `q` becomes
backslash-`q`; other characters are kept verbatim. -/
def escape (q : Char) : List Char → List Char
  | [] => []
  | c :: t => (if c = bslash ∨ c = q then [bslash, c] else [c]) ++ escape q t

/-- `Closes q r`: starting right after the opening quote, the string body
rules (verbatim character, escaped backslash, escaped quote) reach a
matching unescaped closing quote `q` before the end of input. -/
inductive Closes (q : Char) : List Char → Prop
  | closer (rest : List Char) : Closes q (q :: rest)
  | normal {c : Char} {rest : List Char} :
      c ≠ bslash → c ≠ q → Closes q rest → Closes q (c :: rest)
  | escBack {rest : List Char} :
      Closes q rest → Closes q (bslash :: bslash :: rest)
  | escQ {rest : List Char} :
      Closes q rest → Closes q (bslash :: q :: rest)

/-! ## Helper lemmas: `parse_decimal` matches the spec's `DIGITS` -/

theorem skipUnderscores_cons_underscore (r : List Char) :
    skipUnderscores ('_' :: r) = skipUnderscores r := rfl

theorem skipUnderscores_cons_ne (c : Char) (r : List Char) (h : c ≠ '_') :
    skipUnderscores (c :: r) = c :: r := by
  rw [skipUnderscores.eq_def]
  split
  · simp_all
  · rfl

theorem specDigitsLoop_nil : specDigitsLoop [] = [] := by
  rw [specDigitsLoop.eq_def]

theorem specDigitsLoop_cons (c : Char) (r : List Char) :
    specDigitsLoop (c :: r) =
      if isDigitCh c then specDigitsLoop (skipUnderscores r) else c :: r := by
  rw [specDigitsLoop.eq_def]

theorem many0Fuel_underscore (n : Nat) :
    ∀ l : List Char, l.length < n →
      ∃ out, many0Fuel (charP '_') n l = some (skipUnderscores l, out) := by
  induction n with
  | zero => intro l h; omega
  | succ n ih =>
    intro l h
    match l with
    | [] => exact ⟨[], rfl⟩
    | c :: r =>
      by_cases hc : c = '_'
      · subst hc
        have hr : r.length < n := by simpa using Nat.lt_of_succ_lt_succ h
        obtain ⟨out, hout⟩ := ih r hr
        refine ⟨'_' :: out, ?_⟩
        simp [many0Fuel, charP, hout, skipUnderscores_cons_underscore]
      · refine ⟨[], ?_⟩
        simp [many0Fuel, charP, hc, skipUnderscores_cons_ne c r hc]

theorem many0_underscore (l : List Char) :
    ∃ out, many0 (charP '_') l = some (skipUnderscores l, out) :=
  many0Fuel_underscore (l.length + 1) l (Nat.lt_succ_self _)

theorem decimal_inner_nil :
    terminated (one_of digitChars) (many0 (charP '_')) [] = none := rfl

theorem decimal_inner_cons (c : Char) (r : List Char) :
    terminated (one_of digitChars) (many0 (charP '_')) (c :: r) =
      if isDigitCh c then some (skipUnderscores r, c) else none := by
  by_cases hc : isDigitCh c
  · obtain ⟨out, hout⟩ := many0_underscore r
    have hmem : c ∈ digitChars := by simpa [isDigitCh] using hc
    simp [terminated, pseq, one_of, hmem, hout, hc]
  · have hmem : c ∉ digitChars := by simpa [isDigitCh] using hc
    simp [terminated, pseq, one_of, hmem, hc]

theorem skipUnderscores_length_lt (c : Char) (r : List Char) :
    (skipUnderscores r).length < (c :: r).length :=
  Nat.lt_succ_of_le (skipUnderscores_length r)

theorem many0Fuel_decimal_inner (n : Nat) :
    ∀ l : List Char, l.length < n →
      ∃ out,
        many0Fuel (terminated (one_of digitChars) (many0 (charP '_'))) n l =
          some (specDigitsLoop l, out) := by
  induction n with
  | zero => intro l h; omega
  | succ n ih =>
    intro l h
    match l with
    | [] => exact ⟨[], by simp [many0Fuel, decimal_inner_nil, specDigitsLoop_nil]⟩
    | c :: r =>
      by_cases hc : isDigitCh c
      · have hlt : (skipUnderscores r).length < r.length + 1 :=
          Nat.lt_succ_of_le (skipUnderscores_length r)
        have hn : (skipUnderscores r).length < n := by
          have := skipUnderscores_length r
          simp only [List.length_cons] at h
          omega
        obtain ⟨out, hout⟩ := ih (skipUnderscores r) hn
        refine ⟨c :: out, ?_⟩
        simp [many0Fuel, decimal_inner_cons, hc, hlt, hout, specDigitsLoop_cons]
      · refine ⟨[], ?_⟩
        simp [many0Fuel, decimal_inner_cons, hc, specDigitsLoop_cons]

/-- `parse_decimal` is the spec's `DIGITS` recognizer: same rest, and the
matched span is the consumed prefix (underscores included). -/
theorem parse_decimal_spec (l : List Char) :
    parse_decimal l =
      (specDigitsRest l).map (fun r => (r, l.take (l.length - r.length))) := by
  match l with
  | [] => rfl
  | c :: r =>
    by_cases hc : isDigitCh c
    · obtain ⟨out, hout⟩ := many0Fuel_decimal_inner ((skipUnderscores r).length + 1)
        (skipUnderscores r) (Nat.lt_succ_self _)
      simp [parse_decimal, recognize, many1, decimal_inner_cons, hc, many0, hout,
        specDigitsRest]
    · simp [parse_decimal, recognize, many1, decimal_inner_cons, hc, specDigitsRest]

/-! ## Helper lemmas: the three float shapes match the spec grammar -/

/-- Rest of the input after running a parser (dropping the output). -/
def restOf (p : P α) (l : List Char) : Option (List Char) := (p l).map Prod.fst

theorem recognize_eq (p : P α) (l : List Char) :
    recognize p l = (restOf p l).map (fun r => (r, l.take (l.length - r.length))) := by
  cases h : p l with
  | none => simp [recognize, restOf, h]
  | some v => simp [recognize, restOf, h]

theorem restOf_pseq (p : P α) (q : P β) (l : List Char) :
    restOf (pseq p q) l =
      match restOf p l with
      | none => none
      | some r => restOf q r := by
  cases hp : p l with
  | none => simp [restOf, pseq, hp]
  | some v =>
    obtain ⟨r, a⟩ := v
    cases hq : q r with
    | none => simp [restOf, pseq, hp, hq]
    | some w => simp [restOf, pseq, hp, hq]

theorem restOf_preceded (p : P α) (q : P β) (l : List Char) :
    restOf (preceded p q) l = restOf (pseq p q) l := by
  cases h : pseq p q l with
  | none => simp [restOf, preceded, h]
  | some v => obtain ⟨r, a, b⟩ := v; simp [restOf, preceded, h]

theorem restOf_optP (p : P α) (l : List Char) :
    restOf (optP p) l = some ((restOf p l).getD l) := by
  cases h : p l with
  | none => simp [restOf, optP, h]
  | some v => simp [restOf, optP, h]

theorem restOf_charP_nil (c : Char) : restOf (charP c) [] = none := rfl

theorem restOf_charP_cons (c a : Char) (r : List Char) :
    restOf (charP c) (a :: r) = if a = c then some r else none := by
  by_cases h : a = c <;> simp [restOf, charP, h]

theorem restOf_one_of_nil (s : List Char) : restOf (one_of s) [] = none := rfl

theorem restOf_one_of_cons (s : List Char) (a : Char) (r : List Char) :
    restOf (one_of s) (a :: r) = if a ∈ s then some r else none := by
  by_cases h : a ∈ s <;> simp [restOf, one_of, h]

theorem restOf_parse_decimal (l : List Char) :
    restOf parse_decimal l = specDigitsRest l := by
  rw [restOf, parse_decimal_spec]
  cases specDigitsRest l <;> simp

/-- The exponent sub-tuple `(one_of("eE"), opt(one_of("+-")), parse_decimal)`
consumes exactly what the spec's exponent grammar consumes; stated in the
shape left behind by `restOf_pseq`/`restOf_optP`/`restOf_parse_decimal`. -/
theorem expPart_unfolded (r1 : List Char) :
    (match restOf (one_of ['e', 'E']) r1 with
      | none => none
      | some r => specDigitsRest ((restOf (one_of ['+', '-']) r).getD r))
      = specExpTail r1 := by
  match r1 with
  | [] => simp [restOf_one_of_nil, specExpTail]
  | c :: r =>
    by_cases hc : c = 'e' ∨ c = 'E'
    · have hc2 : c ∈ ['e', 'E'] := by simpa using hc
      match r with
      | [] =>
        simp [restOf_one_of_cons, restOf_one_of_nil, hc2, specExpTail, hc]
      | s :: t =>
        by_cases hs : s = '+' ∨ s = '-'
        · have hs2 : s ∈ ['+', '-'] := by simpa using hs
          simp [restOf_one_of_cons, hc2, specExpTail, hc, hs2, hs]
        · have hs2 : s ∉ ['+', '-'] := by simpa using hs
          simp [restOf_one_of_cons, hc2, specExpTail, hc, hs2, hs]
    · have hc2 : c ∉ ['e', 'E'] := by simpa using hc
      simp [restOf_one_of_cons, hc2, specExpTail, hc]

theorem float_case1_spec (l : List Char) :
    float_case1 l = (specShape1 l).map (fun r => (r, l.take (l.length - r.length))) := by
  rw [float_case1, recognize_eq]
  congr 1
  match l with
  | [] => rfl
  | a :: r =>
    by_cases ha : a = '.'
    · subst ha
      cases hd : specDigitsRest r with
      | none =>
        simp [restOf_pseq, restOf_charP_cons, restOf_parse_decimal, specShape1, hd]
      | some r1 =>
        cases he : specExpTail r1 <;>
          simp [restOf_pseq, restOf_charP_cons, restOf_parse_decimal, restOf_optP,
            expPart_unfolded, specShape1, hd, he]
    · simp [restOf_pseq, restOf_charP_cons, ha, specShape1]

theorem float_case2_spec (l : List Char) :
    float_case2 l = (specShape2 l).map (fun r => (r, l.take (l.length - r.length))) := by
  rw [float_case2, recognize_eq]
  congr 1
  cases hd : specDigitsRest l with
  | none => simp [restOf_pseq, restOf_parse_decimal, specShape2, hd]
  | some r1 =>
    match r1 with
    | [] =>
      simp [restOf_pseq, restOf_parse_decimal, restOf_optP, restOf_preceded,
        restOf_charP_nil, expPart_unfolded, specShape2, hd]
    | b :: r1t =>
      by_cases hb : b = '.'
      · subst hb
        cases hf : specDigitsRest r1t with
        | none =>
          simp [restOf_pseq, restOf_parse_decimal, restOf_optP, restOf_preceded,
            restOf_charP_cons, expPart_unfolded, specShape2, hd, hf]
        | some x =>
          simp [restOf_pseq, restOf_parse_decimal, restOf_optP, restOf_preceded,
            restOf_charP_cons, expPart_unfolded, specShape2, hd, hf]
      · simp [restOf_pseq, restOf_parse_decimal, restOf_optP, restOf_preceded,
          restOf_charP_cons, expPart_unfolded, specShape2, hd, hb]

theorem float_case3_spec (l : List Char) :
    float_case3 l = (specShape3 l).map (fun r => (r, l.take (l.length - r.length))) := by
  rw [float_case3, recognize_eq]
  congr 1
  cases hd : specDigitsRest l with
  | none => simp [restOf_pseq, restOf_parse_decimal, specShape3, hd]
  | some r1 =>
    match r1 with
    | [] =>
      simp [restOf_pseq, restOf_parse_decimal, restOf_charP_nil, specShape3, hd]
    | b :: r2 =>
      by_cases hb : b = '.'
      · subst hb
        cases hf : specDigitsRest r2 with
        | none =>
          simp [restOf_pseq, restOf_parse_decimal, restOf_charP_cons, restOf_optP,
            specShape3, hd, hf]
        | some x =>
          simp [restOf_pseq, restOf_parse_decimal, restOf_charP_cons, restOf_optP,
            specShape3, hd, hf]
      · simp [restOf_pseq, restOf_parse_decimal, restOf_charP_cons, specShape3, hd, hb]

/-- The `alt` of the three recognized shapes equals the spec's ordered
three-shape grammar, lexeme included. -/
theorem parse_float_raw_spec (l : List Char) :
    parse_float_raw l = (specShapes l).map (fun r => (r, l.take (l.length - r.length))) := by
  rw [parse_float_raw, alt2, alt2, float_case1_spec, specShapes]
  cases h1 : specShape1 l with
  | some r => simp
  | none =>
    simp only [Option.map_none]
    rw [float_case2_spec]
    cases h2 : specShape2 l with
    | some r => simp
    | none =>
      simp only [Option.map_none]
      rw [float_case3_spec]
      simp

/-! ## Helper lemmas: quoted strings -/

theorem escBodyGo_escape (q : Char) (hq : q ≠ bslash) (s : List Char) :
    ∀ rest : List Char, escBodyGo q (escape q s ++ q :: rest) = some (q :: rest, s) := by
  induction s with
  | nil =>
    intro rest
    have hqb : ¬ q = bslash := hq
    simp only [escape, List.nil_append]
    rw [escBodyGo.eq_def]
    simp [hqb]
  | cons c t ih =>
    intro rest
    by_cases hc : c = bslash ∨ c = q
    · have h1 : escape q (c :: t) = bslash :: c :: escape q t := by
        simp [escape, hc]
      rw [h1, List.cons_append, List.cons_append, escBodyGo.eq_def]
      simp [hc, ih rest]
    · have h1 : escape q (c :: t) = c :: escape q t := by
        simp [escape, hc]
      have hc2 := not_or.mp hc
      rw [h1, List.cons_append, escBodyGo.eq_def]
      simp [hc2.1, hc2.2, ih rest]

theorem escaped_transform_escape (q : Char) (hq : q ≠ bslash) (c : Char)
    (t rest : List Char) :
    escaped_transform q (escape q (c :: t) ++ q :: rest) = some (q :: rest, c :: t) := by
  by_cases hc : c = bslash ∨ c = q
  · have h1 : escape q (c :: t) = bslash :: c :: escape q t := by
      simp [escape, hc]
    rw [h1, List.cons_append, List.cons_append, escaped_transform.eq_def]
    simp [hc, escBodyGo_escape q hq t rest]
  · have h1 : escape q (c :: t) = c :: escape q t := by
      simp [escape, hc]
    have hc2 := not_or.mp hc
    rw [h1, List.cons_append, escaped_transform.eq_def]
    simp [hc2.1, hc2.2, escBodyGo_escape q hq t rest]

/-- Round trip for a nonempty content: quoting the escaped text parses back
to the original content with nothing left over. -/
theorem quoted_escape (q : Char) (hq : q ≠ bslash) (c : Char) (t : List Char) :
    quoted q (q :: (escape q (c :: t) ++ [q])) = some ([], Token.string (c :: t)) := by
  have h := escaped_transform_escape q hq c t []
  simp [quoted, h]

theorem escBodyGo_closes (q : Char) :
    ∀ (n : Nat) (t : List Char), t.length ≤ n → ∀ rem out : List Char,
      escBodyGo q t = some (q :: rem, out) → Closes q t := by
  intro n
  induction n with
  | zero =>
    intro t ht rem out h
    have ht0 : t = [] := List.length_eq_zero.mp (Nat.le_zero.mp ht)
    subst ht0
    rw [escBodyGo.eq_def] at h
    simp at h
  | succ n ih =>
    intro t ht rem out h
    match t with
    | [] =>
      rw [escBodyGo.eq_def] at h
      simp at h
    | c :: rest =>
      by_cases hb : c = bslash
      · subst hb
        match rest with
        | [] =>
          rw [escBodyGo.eq_def] at h
          simp at h
        | d :: rest2 =>
          by_cases hd : d = bslash ∨ d = q
          · rw [escBodyGo.eq_def] at h
            simp only [if_pos rfl, if_pos hd] at h
            cases hrec : escBodyGo q rest2 with
            | none => rw [hrec] at h; exact absurd h (by simp)
            | some v =>
              obtain ⟨rem', out'⟩ := v
              rw [hrec] at h
              simp at h
              obtain ⟨h1, h2⟩ := h
              have hlen : rest2.length ≤ n := by
                simp only [List.length_cons] at ht
                omega
              have hc : Closes q rest2 := ih rest2 hlen rem out' (h1 ▸ hrec)
              rcases hd with hd | hd <;> subst hd
              · exact Closes.escBack hc
              · exact Closes.escQ hc
          · rw [escBodyGo.eq_def] at h
            simp [hd] at h
      · by_cases hqc : c = q
        · subst hqc
          exact Closes.closer rest
        · rw [escBodyGo.eq_def] at h
          simp only [if_neg hb, if_neg hqc] at h
          cases hrec : escBodyGo q rest with
          | none => rw [hrec] at h; exact absurd h (by simp)
          | some v =>
            obtain ⟨rem', out'⟩ := v
            rw [hrec] at h
            simp at h
            obtain ⟨h1, h2⟩ := h
            have hlen : rest.length ≤ n := by
              simp only [List.length_cons] at ht
              omega
            exact Closes.normal hb hqc (ih rest hlen rem out' (h1 ▸ hrec))

theorem escBodyGo_closes_wrap (q : Char) (t rem out : List Char)
    (h : escBodyGo q t = some (q :: rem, out)) : Closes q t :=
  escBodyGo_closes q t.length t le_rfl rem out h

theorem escaped_transform_closes (q : Char) (r rem out : List Char)
    (h : escaped_transform q r = some (q :: rem, out)) : Closes q r := by
  match r with
  | [] =>
    rw [escaped_transform.eq_def] at h
    simp at h
  | c :: rest =>
    by_cases hb : c = bslash
    · subst hb
      match rest with
      | [] =>
        rw [escaped_transform.eq_def] at h
        simp at h
      | d :: rest2 =>
        by_cases hd : d = bslash ∨ d = q
        · rw [escaped_transform.eq_def] at h
          simp only [if_pos rfl, if_pos hd] at h
          cases hrec : escBodyGo q rest2 with
          | none => rw [hrec] at h; exact absurd h (by simp)
          | some v =>
            obtain ⟨rem', out'⟩ := v
            rw [hrec] at h
            simp at h
            obtain ⟨h1, h2⟩ := h
            have hc : Closes q rest2 := escBodyGo_closes_wrap q rest2 rem out' (h1 ▸ hrec)
            rcases hd with hd | hd <;> subst hd
            · exact Closes.escBack hc
            · exact Closes.escQ hc
        · rw [escaped_transform.eq_def] at h
          simp [hd] at h
    · by_cases hqc : c = q
      · subst hqc
        rw [escaped_transform.eq_def] at h
        simp [hb] at h
      · rw [escaped_transform.eq_def] at h
        simp only [if_neg hb, if_neg hqc] at h
        cases hrec : escBodyGo q rest with
        | none => rw [hrec] at h; exact absurd h (by simp)
        | some v =>
          obtain ⟨rem', out'⟩ := v
          rw [hrec] at h
          simp at h
          obtain ⟨h1, h2⟩ := h
          exact Closes.normal hb hqc (escBodyGo_closes_wrap q rest rem out' (h1 ▸ hrec))

theorem quoted_head_ne (q : Char) (l : List Char) (h : l.head? ≠ some q) :
    quoted q l = none := by
  match l with
  | [] => rfl
  | c :: r =>
    have hc : ¬ c = q := by simpa using h
    simp [quoted, hc]

theorem quoted_not_closes (q : Char) (r : List Char) (h : ¬ Closes q r) :
    quoted q (q :: r) = none := by
  cases het : escaped_transform q r with
  | none => simp [quoted, het]
  | some v =>
    obtain ⟨rem, out⟩ := v
    match rem with
    | [] => simp [quoted, het]
    | d :: rem2 =>
      by_cases hdq : d = q
      · rw [hdq] at het
        exact absurd (escaped_transform_closes q r rem2 out het) h
      · simp [quoted, het, hdq]

/-! ## Helper lemmas: digit facts and `parse_float` error characterization -/

theorem isDigitCh_ne (c : Char) (h : isDigitCh c) :
    c ≠ '.' ∧ c ≠ '_' ∧ c ≠ '+' ∧ c ≠ '-' ∧ c ≠ 'e' ∧ c ≠ 'E' := by
  simp only [isDigitCh, digitChars, List.mem_cons, List.not_mem_nil, or_false,
    decide_eq_true_eq] at h
  rcases h with rfl | rfl | rfl | rfl | rfl | rfl | rfl | rfl | rfl | rfl <;>
    exact ⟨by decide, by decide, by decide, by decide, by decide, by decide⟩

theorem skipUnderscores_of_digits (l : List Char) (h : ∀ c ∈ l, isDigitCh c) :
    skipUnderscores l = l := by
  match l with
  | [] => rfl
  | c :: r =>
    exact skipUnderscores_cons_ne c r (isDigitCh_ne c (h c (by simp))).2.1

theorem specDigitsLoop_digits : ∀ (n : Nat) (l : List Char), l.length ≤ n →
    (∀ c ∈ l, isDigitCh c) → specDigitsLoop l = [] := by
  intro n
  induction n with
  | zero =>
    intro l hl hd
    have h0 : l = [] := List.length_eq_zero.mp (Nat.le_zero.mp hl)
    subst h0
    exact specDigitsLoop_nil
  | succ n ih =>
    intro l hl hd
    match l with
    | [] => exact specDigitsLoop_nil
    | c :: r =>
      have hr : ∀ x ∈ r, isDigitCh x := fun x hx => hd x (by simp [hx])
      have hlen : r.length ≤ n := by
        simp only [List.length_cons] at hl
        omega
      rw [specDigitsLoop_cons, if_pos (hd c (by simp)), skipUnderscores_of_digits r hr]
      exact ih r hlen hr

theorem specDigitsRest_digits (c : Char) (r : List Char)
    (h : ∀ x ∈ c :: r, isDigitCh x) : specDigitsRest (c :: r) = some [] := by
  have hr : ∀ x ∈ r, isDigitCh x := fun x hx => h x (by simp [hx])
  rw [specDigitsRest, if_pos (h c (by simp)), skipUnderscores_of_digits r hr,
    specDigitsLoop_digits r.length r le_rfl hr]

theorem specShapes_digits (c : Char) (r : List Char) (h : ∀ x ∈ c :: r, isDigitCh x) :
    specShapes (c :: r) = none := by
  have hne := isDigitCh_ne c (h c (by simp))
  have hrest := specDigitsRest_digits c r h
  simp [specShapes, specShape1, specShape2, specShape3, hne.1, hrest, specExpTail]

theorem specShapes_sign (c : Char) (l : List Char) (h : c = '+' ∨ c = '-') :
    specShapes (c :: l) = none := by
  have h1 : ¬ c = '.' := by rcases h with rfl | rfl <;> decide
  have h2 : ¬ isDigitCh c := by rcases h with rfl | rfl <;> decide
  simp [specShapes, specShape1, specShape2, specShape3, specDigitsRest, h1, h2]

/-- `parse_float` reports a parse error exactly when all three spec shapes
fail (a shape match followed by a failed conversion is a panic, not an
error). -/
theorem parse_float_err_iff (l : List Char) :
    parse_float l = FloatResult.err ↔ specShapes l = none := by
  simp only [parse_float]
  rw [parse_float_raw_spec]
  cases h : specShapes l with
  | none => simp
  | some r =>
    cases hv : rustF64Parse (l.take (l.length - r.length)) <;> simp [hv]

/-! ## Claims -/

/-- C1 (code bug): the spec requires underscore separators to be stripped
from the matched lexeme before the string-to-double conversion, but
`parse_float` hands the raw recognized span (underscores included) to the
conversion, which rejects underscores. On "3_000.5" the trailing-dot shape
matches the entire input, yet the conversion fails and the `unwrap`
panics, instead of the claimed successful return of `Number(3000.5)`. -/
theorem C1_underscores_not_stripped :
    parse_float_raw ['3', '_', '0', '0', '0', '.', '5']
        = some ([], ['3', '_', '0', '0', '0', '.', '5'])
      ∧ parse_float ['3', '_', '0', '0', '0', '.', '5'] = FloatResult.panic := by
  exact ⟨by decide, by decide⟩

/-- C2 (code bug): the claim that the recognizers never abort and that the
panicking branch of the `unwrap` after conversion is unreachable is false:
on "9_." the third shape matches with lexeme "9_." (underscore retained by
`recognize`), the conversion rejects it, and `parse_float` panics. -/
theorem C2_unwrap_reachable :
    parse_float ['9', '_', '.'] = FloatResult.panic := by
  decide

/-- C3: every input that is a bare digit sequence (one or more ASCII
decimal digits and nothing else) is rejected by `parse_float`: shape 1
needs a leading dot, shapes 2 and 3 consume all digits and then require an
exponent marker resp. a dot that is not there. -/
theorem C3_bare_integer_rejected (l : List Char) (hne : l ≠ [])
    (hd : ∀ c ∈ l, isDigitCh c) : parse_float l = FloatResult.err := by
  match l with
  | [] => exact absurd rfl hne
  | c :: r => exact (parse_float_err_iff _).mpr (specShapes_digits c r hd)

/-- C3 witness: `parse_float("42")` fails. -/
theorem C3_witness :
    (['4', '2'] ≠ ([] : List Char)) ∧ parse_float ['4', '2'] = FloatResult.err :=
  ⟨by decide, C3_bare_integer_rejected ['4', '2'] (by decide) (by decide)⟩

/-- C5: `parse_float` implements the ordered alternation of the three spec
shapes: the recognized lexeme/rest is that of the first of `specShape1`,
`specShape2`, `specShape3` that matches the original input (failed shapes
consume nothing, each shape is tried from the same start), and a parse
error occurs exactly when all three shapes fail. -/
theorem C5_ordered_alternation (l : List Char) :
    parse_float_raw l = (specShapes l).map (fun r => (r, l.take (l.length - r.length)))
      ∧ (parse_float l = FloatResult.err ↔ specShapes l = none) :=
  ⟨parse_float_raw_spec l, parse_float_err_iff l⟩

/-- C4 counterexample: the round-trip property fails at `s = ""`: nom's
`escaped_transform` rejects an empty body, so `"''"` does not parse back
to the empty string. -/
theorem C4_counterexample :
    ¬ (parse_single_quoted_string (squote :: escape squote [] ++ [squote])
        = some ([], Token.string [])) := by
  decide

/-- C4 (amended): for every nonempty string `s` and each quote kind, the
corresponding recognizer applied to `Q ++ escape(s, Q) ++ Q` succeeds,
decodes back exactly `s`, and leaves no remaining input. -/
theorem C4_escape_roundtrip (s : List Char) (hne : s ≠ []) :
    parse_single_quoted_string (squote :: escape squote s ++ [squote])
        = some ([], Token.string s)
      ∧ parse_double_quoted_string (dquote :: escape dquote s ++ [dquote])
        = some ([], Token.string s) := by
  match s with
  | [] => exact absurd rfl hne
  | c :: t =>
    exact ⟨quoted_escape squote (by decide) c t, quoted_escape dquote (by decide) c t⟩

/-- C4 witness: round trip at `s = "hi"` for both quote kinds. -/
theorem C4_witness :
    (['h', 'i'] ≠ ([] : List Char))
      ∧ parse_single_quoted_string (squote :: escape squote ['h', 'i'] ++ [squote])
          = some ([], Token.string ['h', 'i'])
      ∧ parse_double_quoted_string (dquote :: escape dquote ['h', 'i'] ++ [dquote])
          = some ([], Token.string ['h', 'i']) :=
  ⟨by decide, (C4_escape_roundtrip ['h', 'i'] (by decide)).1,
    (C4_escape_roundtrip ['h', 'i'] (by decide)).2⟩

/-- C6: each quoted-string recognizer returns an error (never a partial
token) when the input does not start with its quote, and when the body
after the opening quote cannot reach a matching unescaped closing quote
under the body rules (`Closes`): this covers unterminated input, a
backslash at end of input, and a backslash followed by any character other
than backslash or the quote. -/
theorem C6_failure_conditions (l r : List Char) :
    (l.head? ≠ some squote → parse_single_quoted_string l = none)
      ∧ (¬ Closes squote r → parse_single_quoted_string (squote :: r) = none)
      ∧ (l.head? ≠ some dquote → parse_double_quoted_string l = none)
      ∧ (¬ Closes dquote r → parse_double_quoted_string (dquote :: r) = none) :=
  ⟨quoted_head_ne squote l, quoted_not_closes squote r,
    quoted_head_ne dquote l, quoted_not_closes dquote r⟩

/-- C6 witness: missing-open and unterminated inputs for both kinds. -/
theorem C6_witness :
    parse_single_quoted_string ['y'] = none
      ∧ parse_single_quoted_string [squote] = none
      ∧ parse_double_quoted_string ['y'] = none
      ∧ parse_double_quoted_string [dquote] = none :=
  ⟨(C6_failure_conditions ['y'] []).1 (by decide),
    (C6_failure_conditions ['y'] []).2.1 (fun h => nomatch h),
    (C6_failure_conditions ['y'] []).2.2.1 (by decide),
    (C6_failure_conditions ['y'] []).2.2.2 (fun h => nomatch h)⟩

/-- C7: `parse_string` is the ordered alternation of the single-quote and
double-quote recognizers (first success wins), and consequently rejects
mismatched delimiters such as `"yoted'` and `'yoted"`. -/
theorem C7_string_alternation :
    (∀ l : List Char, parse_string l =
        match parse_single_quoted_string l with
        | some r => some r
        | none => parse_double_quoted_string l)
      ∧ parse_string [dquote, 'y', 'o', 't', 'e', 'd', squote] = none
      ∧ parse_string [squote, 'y', 'o', 't', 'e', 'd', dquote] = none :=
  ⟨fun l => by cases h : parse_single_quoted_string l <;> simp [parse_string, alt2, h],
    by decide, by decide⟩

/-- C8: `parse_decimal` matches one or more ASCII decimal digits each
followed by zero or more underscores, keeping the separators in the
matched span: "3000" and "3_000_000" match whole with the underscores
retained, "_3_000_000" fails, and in general the matched span is the
consumed prefix of the spec's `DIGITS` grammar. -/
theorem C8_decimal_separators :
    parse_decimal ['3', '0', '0', '0'] = some ([], ['3', '0', '0', '0'])
      ∧ parse_decimal ['3', '_', '0', '0', '0', '_', '0', '0', '0']
          = some ([], ['3', '_', '0', '0', '0', '_', '0', '0', '0'])
      ∧ parse_decimal ['_', '3', '_', '0', '0', '0', '_', '0', '0', '0'] = none
      ∧ ∀ l : List Char, parse_decimal l =
          (specDigitsRest l).map (fun r => (r, l.take (l.length - r.length))) :=
  ⟨by decide, by decide, by decide, parse_decimal_spec⟩

/-- C9 counterexample: `parse_string("''")` does not succeed with the empty
decoded content; nom's `escaped_transform` rejects the empty body. -/
theorem C9_counterexample :
    ¬ (parse_string [squote, squote] = some ([], Token.string [])) := by
  decide

/-- C9 (amended): the empty body is not admissible: both `parse_string("''")`
and `parse_string("\"\"")` fail, because the body combinator errors when
its very first position already holds the closing quote. -/
theorem C9_empty_string_rejected :
    parse_string [squote, squote] = none ∧ parse_string [dquote, dquote] = none := by
  exact ⟨by decide, by decide⟩

/-- C10: no numeric shape admits a leading sign, so `parse_float` fails on
every input whose first character is `+` or `-`. -/
theorem C10_leading_sign_rejected (c : Char) (l : List Char)
    (h : c = '+' ∨ c = '-') : parse_float (c :: l) = FloatResult.err :=
  (parse_float_err_iff _).mpr (specShapes_sign c l h)

/-- C10 witness: `parse_float("-1.5")` fails. -/
theorem C10_witness :
    (('-' : Char) = '+' ∨ ('-' : Char) = '-')
      ∧ parse_float ['-', '1', '.', '5'] = FloatResult.err :=
  ⟨by decide, C10_leading_sign_rejected '-' ['1', '.', '5'] (by decide)⟩
